import Mathlib

/-!
Shallow embedding of the sickmath linear-algebra library.

Element values of the generic parameter T are modelled as mathematical
integers; the spec's data model requires T to convert "losslessly enough"
to and from the wide signed integer type, so `to_isize` is modelled as the
identity, while `from_isize` keeps the representability check that the
source performs with `FromPrimitive::from_isize(..).expect(..)`.
A Rust panic is modelled as `none`; every fallible operation returns an
`Option`.  In-place `_mut` operations are modelled by explicit state
passing: they return the final value of the mutated receiver.
-/

set_option autoImplicit false

namespace Sickmath

/-- An element type T: `repr x` tells whether the wide signed value `x`
is representable in T.  The numeric value carried by a representable
element is the integer itself. -/
structure ElemTy where
  repr : Int → Bool

/-- FromPrimitive::from_isize followed by .expect: succeeds exactly when
the value is representable in T, and then preserves the value. -/
def ElemTy.from_isize (t : ElemTy) (x : Int) : Option Int :=
  if t.repr x then some x else none

/-- An element type in which every wide signed value is representable. -/
def ElemTy.total : ElemTy := ⟨fun _ => true⟩

/-- A loop `for i in 0..n` that pushes one produced element per index;
a failing body is a panic and aborts the whole loop. -/
def buildN {α : Type} : Nat → (Nat → Option α) → Option (List α)
  | 0, _ => some []
  | n + 1, f => do
      let xs ← buildN n f
      let x ← f n
      pure (xs ++ [x])

/-- A loop `for i in 0..n` accumulating `acc += body i` from `T::default()`. -/
def sumN : Nat → (Nat → Option Int) → Option Int
  | 0, _ => some 0
  | n + 1, f => do
      let s ← sumN n f
      let x ← f n
      pure (s + x)

/-- A loop `for (idx, num) in self.iter_mut().enumerate()` replacing each
element `x` at position `i` by `f x (rhs i)`; it walks the receiver's
actual data, not the nominal arity. -/
def mutZip {α : Type} (f : α → Int → α) : List α → Nat → (Nat → Option Int) → Option (List α)
  | [], _, _ => some []
  | x :: xs, i, rhs => do
      let y ← rhs i
      let rest ← mutZip f xs (i + 1) rhs
      pure (f x y :: rest)

/-- A loop that pushes `f x` for each element `x` of a Vec in order,
aborting on the first failing body. -/
def mapMOpt {α β : Type} (f : α → Option β) : List α → Option (List β)
  | [] => some []
  | x :: xs => do
      let y ← f x
      let ys ← mapMOpt f xs
      pure (y :: ys)

/-- The body `f self.data[idx] rhs[idx]` shared by the elementwise loops:
both reads go through checked indexing. -/
def readBin (f : Int → Int → Int) (d : List Int) (rhs : Nat → Option Int) (idx : Nat) :
    Option Int := do
  let x ← d[idx]?
  let y ← rhs idx
  pure (f x y)

end Sickmath

namespace Sickmath.SmallVector

/-- SmallVector::scalar (small_vector/math.rs:25): converts the factor into
T once, then multiplies every element; the data of a SmallVector is a
[T; N] array, so the write loop covers exactly the data. -/
def scalar (t : ElemTy) (s : Int) (d : List Int) : Option (List Int) := do
  let k ← t.from_isize s
  pure (d.map (fun x => x * k))

/-- SmallVector::scalar_mut (small_vector/math.rs:36): converts once, then
multiplies each element in place. -/
def scalar_mut (t : ElemTy) (s : Int) (d : List Int) : Option (List Int) := do
  let k ← t.from_isize s
  pure (d.map (fun x => x * k))

/-- SmallVector::dot (small_vector/math.rs:43): accumulate
`self.data[idx] * rhs[idx]` for idx in 0..N, then convert the accumulator
to isize (lossless per the element-type contract). -/
def dot (N : Nat) (d : List Int) (rhs : Nat → Option Int) : Option Int :=
  sumN N (readBin (fun x y => x * y) d rhs)

/-- SmallVector::add_vector (small_vector/math.rs:53): a fresh N-length
buffer receives `self.data[idx] + rhs[idx]` for idx in 0..N. -/
def add_vector (N : Nat) (d : List Int) (rhs : Nat → Option Int) : Option (List Int) :=
  buildN N (readBin (fun x y => x + y) d rhs)

/-- SmallVector::add_vector_mut (small_vector/math.rs:63): `*num += rhs[idx]`
over the receiver's elements. -/
def add_vector_mut (d : List Int) (rhs : Nat → Option Int) : Option (List Int) :=
  mutZip (fun x y => x + y) d 0 rhs

/-- SmallVector::sub_vector (small_vector/math.rs:69). -/
def sub_vector (N : Nat) (d : List Int) (rhs : Nat → Option Int) : Option (List Int) :=
  buildN N (readBin (fun x y => x - y) d rhs)

/-- SmallVector::sub_vector_mut (small_vector/math.rs:81). -/
def sub_vector_mut (d : List Int) (rhs : Nat → Option Int) : Option (List Int) :=
  mutZip (fun x y => x - y) d 0 rhs

/-- SmallVector::entrywise (small_vector/math.rs:87). -/
def entrywise (N : Nat) (d : List Int) (rhs : Nat → Option Int) : Option (List Int) :=
  buildN N (readBin (fun x y => x * y) d rhs)

/-- SmallVector::entrywise_mut (small_vector/math.rs:99). -/
def entrywise_mut (d : List Int) (rhs : Nat → Option Int) : Option (List Int) :=
  mutZip (fun x y => x * y) d 0 rhs

/-- SmallVector::cross (small_vector/math.rs:105): panics unless N = 3,
then fills a 3-element buffer with the cross-product formula. -/
def cross (N : Nat) (d : List Int) (rhs : Nat → Option Int) : Option (List Int) :=
  if N ≠ 3 then none
  else do
    let a0 ← d[0]?
    let a1 ← d[1]?
    let a2 ← d[2]?
    let b0 ← rhs 0
    let b1 ← rhs 1
    let b2 ← rhs 2
    pure [a1 * b2 - a2 * b1, a2 * b0 - a0 * b2, a0 * b1 - a1 * b0]

/-- SmallVector::cross_mut (small_vector/math.rs:121): panics unless N = 3,
clones the data and overwrites positions 0, 1, 2 of the receiver with the
formula computed from the clone. -/
def cross_mut (N : Nat) (d : List Int) (rhs : Nat → Option Int) : Option (List Int) :=
  if N ≠ 3 then none
  else do
    let a0 ← d[0]?
    let a1 ← d[1]?
    let a2 ← d[2]?
    let b0 ← rhs 0
    let b1 ← rhs 1
    let b2 ← rhs 2
    pure (((d.set 0 (a1 * b2 - a2 * b1)).set 1 (a2 * b0 - a0 * b2)).set 2
      (a0 * b1 - a1 * b0))

/-- SmallVector::sum (small_vector/math.rs:160). -/
def sum (d : List Int) : Option Int :=
  some d.sum

end Sickmath.SmallVector

namespace Sickmath.LargeVector

/-- LargeVector::scalar (large_vector/math.rs:27): pushes
`num * from_isize(scalar).expect(..)` for each element; the conversion is
re-done inside the loop, so an empty data vector never converts at all. -/
def scalar (t : ElemTy) (s : Int) (d : List Int) : Option (List Int) :=
  mapMOpt (fun x => (t.from_isize s).map (fun k => x * k)) d

/-- LargeVector::scalar_mut (large_vector/math.rs:37): `*num *= from_isize(..)`
per element. -/
def scalar_mut (t : ElemTy) (s : Int) (d : List Int) : Option (List Int) :=
  mapMOpt (fun x => (t.from_isize s).map (fun k => x * k)) d

/-- LargeVector::dot (large_vector/math.rs:43). -/
def dot (N : Nat) (d : List Int) (rhs : Nat → Option Int) : Option Int :=
  sumN N (readBin (fun x y => x * y) d rhs)

/-- LargeVector::add_vector (large_vector/math.rs:53): pushes
`self.data[idx] + rhs[idx]` for idx in 0..N into a fresh Vec. -/
def add_vector (N : Nat) (d : List Int) (rhs : Nat → Option Int) : Option (List Int) :=
  buildN N (readBin (fun x y => x + y) d rhs)

/-- LargeVector::add_vector_mut (large_vector/math.rs:63): `*num += rhs[idx]`
over the receiver's actual data. -/
def add_vector_mut (d : List Int) (rhs : Nat → Option Int) : Option (List Int) :=
  mutZip (fun x y => x + y) d 0 rhs

/-- LargeVector::sub_vector (large_vector/math.rs:69). -/
def sub_vector (N : Nat) (d : List Int) (rhs : Nat → Option Int) : Option (List Int) :=
  buildN N (readBin (fun x y => x - y) d rhs)

/-- LargeVector::sub_vector_mut (large_vector/math.rs:81). -/
def sub_vector_mut (d : List Int) (rhs : Nat → Option Int) : Option (List Int) :=
  mutZip (fun x y => x - y) d 0 rhs

/-- LargeVector::entrywise (large_vector/math.rs:87). -/
def entrywise (N : Nat) (d : List Int) (rhs : Nat → Option Int) : Option (List Int) :=
  buildN N (readBin (fun x y => x * y) d rhs)

/-- LargeVector::entrywise_mut (large_vector/math.rs:99). -/
def entrywise_mut (d : List Int) (rhs : Nat → Option Int) : Option (List Int) :=
  mutZip (fun x y => x * y) d 0 rhs

/-- LargeVector::cross (large_vector/math.rs:105): panics unless N = 3, then
pushes the three formula entries, reading self.data[0..3] by checked
indexing. -/
def cross (N : Nat) (d : List Int) (rhs : Nat → Option Int) : Option (List Int) :=
  if N ≠ 3 then none
  else do
    let a0 ← d[0]?
    let a1 ← d[1]?
    let a2 ← d[2]?
    let b0 ← rhs 0
    let b1 ← rhs 1
    let b2 ← rhs 2
    pure [a1 * b2 - a2 * b1, a2 * b0 - a0 * b2, a0 * b1 - a1 * b0]

/-- LargeVector::cross_mut (large_vector/math.rs:119). -/
def cross_mut (N : Nat) (d : List Int) (rhs : Nat → Option Int) : Option (List Int) :=
  if N ≠ 3 then none
  else do
    let a0 ← d[0]?
    let a1 ← d[1]?
    let a2 ← d[2]?
    let b0 ← rhs 0
    let b1 ← rhs 1
    let b2 ← rhs 2
    pure (((d.set 0 (a1 * b2 - a2 * b1)).set 1 (a2 * b0 - a0 * b2)).set 2
      (a0 * b1 - a1 * b0))

end Sickmath.LargeVector

namespace Sickmath

/-- The unified Vector (vector.rs:78): a tagged union of the two storage
strategies; data is the element list of whichever variant is active. -/
inductive Vector where
  | Small : List Int → Vector
  | Large : List Int → Vector
deriving DecidableEq

/-- Index for Vector (vector.rs:147): dispatches to the active variant's
checked indexing. -/
def Vector.index : Vector → Nat → Option Int
  | Vector.Small d, i => d[i]?
  | Vector.Large d, i => d[i]?

/-- Length of the active variant's backing data. -/
def Vector.dataLen : Vector → Nat
  | Vector.Small d => d.length
  | Vector.Large d => d.length

/-- Whether the fixed-capacity variant is active. -/
def Vector.isSmall : Vector → Bool
  | Vector.Small _ => true
  | Vector.Large _ => false

/-- Element at position i, defaulting to 0 out of range (used only under
a length hypothesis making the read real). -/
def Vector.el : Vector → Nat → Int
  | Vector.Small d, i => d.getD i 0
  | Vector.Large d, i => d.getD i 0

/-- Rebuild a vector with the receiver's variant tag around new data. -/
def Vector.withData : Vector → List Int → Vector
  | Vector.Small _, d => Vector.Small d
  | Vector.Large _, d => Vector.Large d

/-- The length invariant of the data model: the active variant holds
exactly N elements. -/
def Vector.wf (N : Nat) (v : Vector) : Prop :=
  v.dataLen = N

instance (N : Nat) (v : Vector) : Decidable (v.wf N) := by
  unfold Vector.wf; infer_instance

/-- PartialEq for Vector (vector.rs:166): walk idx in 0..N, return false at
the first mismatching pair of indexed reads, true after N equal pairs. -/
def peqFrom (a b : Vector) : Nat → Nat → Option Bool
  | _, 0 => some true
  | i, n + 1 => do
      let x ← a.index i
      let y ← b.index i
      if x ≠ y then some false else peqFrom a b (i + 1) n

/-- The == comparison on unified vectors of arity N. -/
def Vector.peq (N : Nat) (a b : Vector) : Option Bool :=
  peqFrom a b 0 N

/-- MathVector::scalar for Vector (vector/math.rs:26): match on the active
variant, delegate, rewrap with the same tag. -/
def Vector.scalar (t : ElemTy) (s : Int) : Vector → Option Vector
  | Vector.Small d => (SmallVector.scalar t s d).map Vector.Small
  | Vector.Large d => (LargeVector.scalar t s d).map Vector.Large

/-- MathVector::scalar_mut for Vector (vector/math.rs:33). -/
def Vector.scalar_mut (t : ElemTy) (s : Int) : Vector → Option Vector
  | Vector.Small d => (SmallVector.scalar_mut t s d).map Vector.Small
  | Vector.Large d => (LargeVector.scalar_mut t s d).map Vector.Large

/-- MathVector::dot for Vector (vector/math.rs:40). -/
def Vector.dot (N : Nat) : Vector → Vector → Option Int
  | Vector.Small d, rhs => SmallVector.dot N d rhs.index
  | Vector.Large d, rhs => LargeVector.dot N d rhs.index

/-- MathVector::add_vector for Vector (vector/math.rs:47). -/
def Vector.add_vector (N : Nat) : Vector → Vector → Option Vector
  | Vector.Small d, rhs => (SmallVector.add_vector N d rhs.index).map Vector.Small
  | Vector.Large d, rhs => (LargeVector.add_vector N d rhs.index).map Vector.Large

/-- MathVector::add_vector_mut for Vector (vector/math.rs:54). -/
def Vector.add_vector_mut : Vector → Vector → Option Vector
  | Vector.Small d, rhs => (SmallVector.add_vector_mut d rhs.index).map Vector.Small
  | Vector.Large d, rhs => (LargeVector.add_vector_mut d rhs.index).map Vector.Large

/-- MathVector::sub_vector for Vector (vector/math.rs:61). -/
def Vector.sub_vector (N : Nat) : Vector → Vector → Option Vector
  | Vector.Small d, rhs => (SmallVector.sub_vector N d rhs.index).map Vector.Small
  | Vector.Large d, rhs => (LargeVector.sub_vector N d rhs.index).map Vector.Large

/-- MathVector::sub_vector_mut for Vector (vector/math.rs:68). -/
def Vector.sub_vector_mut : Vector → Vector → Option Vector
  | Vector.Small d, rhs => (SmallVector.sub_vector_mut d rhs.index).map Vector.Small
  | Vector.Large d, rhs => (LargeVector.sub_vector_mut d rhs.index).map Vector.Large

/-- MathVector::entrywise for Vector (vector/math.rs:75). -/
def Vector.entrywise (N : Nat) : Vector → Vector → Option Vector
  | Vector.Small d, rhs => (SmallVector.entrywise N d rhs.index).map Vector.Small
  | Vector.Large d, rhs => (LargeVector.entrywise N d rhs.index).map Vector.Large

/-- MathVector::entrywise_mut for Vector (vector/math.rs:82). -/
def Vector.entrywise_mut : Vector → Vector → Option Vector
  | Vector.Small d, rhs => (SmallVector.entrywise_mut d rhs.index).map Vector.Small
  | Vector.Large d, rhs => (LargeVector.entrywise_mut d rhs.index).map Vector.Large

/-- MathVector::cross for Vector (vector/math.rs:89). -/
def Vector.cross (N : Nat) : Vector → Vector → Option Vector
  | Vector.Small d, rhs => (SmallVector.cross N d rhs.index).map Vector.Small
  | Vector.Large d, rhs => (LargeVector.cross N d rhs.index).map Vector.Large

/-- MathVector::cross_mut for Vector (vector/math.rs:96). -/
def Vector.cross_mut (N : Nat) : Vector → Vector → Option Vector
  | Vector.Small d, rhs => (SmallVector.cross_mut N d rhs.index).map Vector.Small
  | Vector.Large d, rhs => (LargeVector.cross_mut N d rhs.index).map Vector.Large

/-- Add for Vector (vector/math_ops.rs:27): delegates to add_vector on the
active variant and rewraps with the same tag. -/
def Vector.add (N : Nat) : Vector → Vector → Option Vector
  | Vector.Small d, rhs => (SmallVector.add_vector N d rhs.index).map Vector.Small
  | Vector.Large d, rhs => (LargeVector.add_vector N d rhs.index).map Vector.Large

/-- AddAssign for Vector (vector/math_ops.rs:49). -/
def Vector.add_assign : Vector → Vector → Option Vector
  | Vector.Small d, rhs => (SmallVector.add_vector_mut d rhs.index).map Vector.Small
  | Vector.Large d, rhs => (LargeVector.add_vector_mut d rhs.index).map Vector.Large

/-- Sub for Vector (vector/math_ops.rs:73): the Small arm delegates to
sub_vector, but the Large arm delegates to add_vector, exactly as written
at math_ops.rs:76. -/
def Vector.sub (N : Nat) : Vector → Vector → Option Vector
  | Vector.Small d, rhs => (SmallVector.sub_vector N d rhs.index).map Vector.Small
  | Vector.Large d, rhs => (LargeVector.add_vector N d rhs.index).map Vector.Large

/-- SubAssign for Vector (vector/math_ops.rs:95): the Large arm delegates to
add_vector_mut, exactly as written at math_ops.rs:98. -/
def Vector.sub_assign : Vector → Vector → Option Vector
  | Vector.Small d, rhs => (SmallVector.sub_vector_mut d rhs.index).map Vector.Small
  | Vector.Large d, rhs => (LargeVector.add_vector_mut d rhs.index).map Vector.Large

/-- Mul for Vector (vector/math_ops.rs:119). -/
def Vector.mul (N : Nat) : Vector → Vector → Option Vector
  | Vector.Small d, rhs => (SmallVector.entrywise N d rhs.index).map Vector.Small
  | Vector.Large d, rhs => (LargeVector.entrywise N d rhs.index).map Vector.Large

/-- MulAssign for Vector (vector/math_ops.rs:141). -/
def Vector.mul_assign : Vector → Vector → Option Vector
  | Vector.Small d, rhs => (SmallVector.entrywise_mut d rhs.index).map Vector.Small
  | Vector.Large d, rhs => (LargeVector.entrywise_mut d rhs.index).map Vector.Large

end Sickmath

namespace Sickmath

/-- IntoArray for Vec of T (small_vector/into_array.rs:19): try_into a
[T; N], panicking when the runtime length differs from N. -/
def List.into_array (N : Nat) (data : List Int) : Option (List Int) :=
  if data.length = N then some data else none

/-- IntoVec for Vec of T (large_vector/into_vec.rs:7): the identity, with
no length check at all. -/
def List.into_vec (data : List Int) : List Int :=
  data

/-- SmallVector::new (small_vector.rs:18) from a Vec source. -/
def SmallVector.new (N : Nat) (data : List Int) : Option (List Int) :=
  List.into_array N data

/-- LargeVector::new (large_vector.rs:19) from a Vec source. -/
def LargeVector.new (data : List Int) : List Int :=
  List.into_vec data

/-- Modelled from the spec: the external uniform random source is an
injected capability; gen i is the i-th value it produces.  SmallVector::
new_random (small_vector.rs:24) fills an [T; N] buffer with N samples. -/
def SmallVector.new_random (N : Nat) (gen : Nat → Int) : List Int :=
  (List.range N).map gen

/-- LargeVector::new_random (large_vector.rs:26): pushes N samples into a
Vec with capacity N. -/
def LargeVector.new_random (N : Nat) (gen : Nat → Int) : List Int :=
  (List.range N).map gen

/-- Default for SmallVector (small_vector.rs:41): [T::default(); N]. -/
def SmallVector.default (N : Nat) : List Int :=
  List.replicate N 0

/-- Default for LargeVector (large_vector.rs:41): Vec::with_capacity(N),
which is an empty vector of capacity N. -/
def LargeVector.default (N : Nat) : List Int :=
  []

/-- Vector::new (vector.rs:96): always the Small variant, through
IntoArray. -/
def Vector.new (N : Nat) (data : List Int) : Option Vector :=
  (SmallVector.new N data).map Vector.Small

/-- Vector::new_random (vector.rs:105): Small when N < 5001, Large
otherwise. -/
def Vector.new_random (N : Nat) (gen : Nat → Int) : Vector :=
  if N < 5001 then Vector.Small (SmallVector.new_random N gen)
  else Vector.Large (LargeVector.new_random N gen)

/-- Vector::new_large (vector.rs:120): always the Large variant, through
IntoVec. -/
def Vector.new_large (N : Nat) (data : List Int) : Vector :=
  Vector.Large (LargeVector.new data)

/-- Vector::new_large_random (vector.rs:129). -/
def Vector.new_large_random (N : Nat) (gen : Nat → Int) : Vector :=
  Vector.Large (LargeVector.new_random N gen)

/-- Default for Vector (vector.rs:139): a default SmallVector. -/
def Vector.default (N : Nat) : Vector :=
  Vector.Small (SmallVector.default N)

/-- The small-regime collection loop of FromIterator (iterator.rs:178):
`collector[idx] = item; idx += 1` over the source, panicking when idx
reaches past the end of the N-length collector array. -/
def fromIterFill : List Int → Nat → List Int → Option (List Int)
  | collector, _, [] => some collector
  | collector, idx, item :: rest =>
      if idx < collector.length then fromIterFill (collector.set idx item) (idx + 1) rest
      else none

/-- FromIterator for Vector (iterator.rs:170): for N < 5001 fill a
default-initialized [T; N]; otherwise push every item into a Vec and wrap
it unchecked as a LargeVector. -/
def Vector.from_iter (N : Nat) (src : List Int) : Option Vector :=
  if N < 5001 then (fromIterFill (List.replicate N 0) 0 src).map Vector.Small
  else some (Vector.Large (LargeVector.new src))

end Sickmath

namespace Sickmath.Matrix

/-- Checked 2-dimensional read self[r][c] through the row's indexing. -/
def gridGet (g : List (List Int)) (r c : Nat) : Option Int :=
  (g[r]?).bind (fun row => row[c]?)

/-- Modelled from the spec: the Matrix container itself (struct, Index,
iteration, transpose) is not under src, only matrix/math.rs is.  Per the
data model a Matrix owns exactly M row vectors of arity N; rows are
represented here by their element lists, since every operation in scope
reads rows only through indexing.  The transpose of an N-row, P-column
matrix is the P-row, N-column matrix with entry [c][k] = b[k][c]. -/
def transpose (N P : Nat) (b : List (List Int)) : Option (List (List Int)) :=
  buildN P (fun c => buildN N (fun k => gridGet b k c))

/-- The shape invariant of the data model: exactly M rows of exactly N
elements each. -/
def wf (M N : Nat) (g : List (List Int)) : Prop :=
  g.length = M ∧ ∀ row ∈ g, row.length = N

instance (M N : Nat) (g : List (List Int)) : Decidable (wf M N g) := by
  unfold wf; infer_instance

/-- Vector::dot of a row of self with a row of the transpose
(matrix/math.rs:46 delegating to small_vector/math.rs:43 or
large_vector/math.rs:43, which compute the same accumulation). -/
def dotRow (N : Nat) (row col : List Int) : Option Int :=
  sumN N (readBin (fun x y => x * y) row col.get?)

/-- The direct regime of Matrix::mult (matrix/math.rs:31): for row in 0..M,
for col in 0..P, accumulate `self[row][index] * matrix2[index][col]` for
index in 0..P — the inner bound is P, as written at matrix/math.rs:36. -/
def multDirect (M P : Nat) (a b : List (List Int)) : Option (List (List Int)) :=
  buildN M (fun row => buildN P (fun col =>
    sumN P (fun index => do
      let x ← gridGet a row index
      let y ← gridGet b index col
      pure (x * y))))

/-- The transpose regime of Matrix::mult (matrix/math.rs:42): enumerate the
rows of self, enumerate the rows of matrix2.transpose(), and store
`from_isize(row.dot(col)).expect(..)` into an M-row result buffer of
default-initialized P-length rows (writing past M rows panics; rows left
unwritten keep their zero fill, per the Design Note on replacing the
uninitialized buffer with a zero-filled one). -/
def multTranspose (t : ElemTy) (M N P : Nat) (a b : List (List Int)) :
    Option (List (List Int)) :=
  if a.length ≤ M then do
    let bt ← transpose N P b
    let rows ← mapMOpt (fun row =>
      mapMOpt (fun col => do
        let d ← dotRow N row col
        t.from_isize d) bt) a
    pure (rows ++ List.replicate (M - a.length) (List.replicate P 0))
  else none

/-- Matrix::mult (matrix/math.rs:25): the direct regime when
P * M < 300 * 800, the transpose regime otherwise. -/
def mult (t : ElemTy) (M N P : Nat) (a b : List (List Int)) :
    Option (List (List Int)) :=
  if P * M < 300 * 800 then multDirect M P a b
  else multTranspose t M N P a b

/-- The standard matrix-product entry: the sum over k from 0 to N-1 of
a[r][k] * b[k][c], as the specification states it. -/
def standardEntry (a b : List (List Int)) (N r c : Nat) : Int :=
  ((List.range N).map (fun k => (a.getD r []).getD k 0 * (b.getD k []).getD c 0)).sum

/-- The value of self[row].dot(transposed[col]) under the shape invariant:
the standard inner accumulation of length N. -/
def dvOf (N : Nat) (row col : List Int) : Int :=
  ((List.range N).map (fun i => row.getD i 0 * col.getD i 0)).sum

/-- The transpose grid under the shape invariant. -/
def btOf (N P : Nat) (b : List (List Int)) : List (List Int) :=
  (List.range P).map (fun c => (List.range N).map (fun k => (b.getD k []).getD c 0))


end Sickmath.Matrix

namespace Sickmath

theorem getElem?_eq_getD {d : List Int} {i : Nat} (h : i < d.length) :
    d[i]? = some (d.getD i 0) := by
  rw [List.getElem?_eq_getElem h, List.getD_eq_getElem d 0 h]

theorem readBin_eq {f : Int → Int → Int} {d : List Int} {rhs : Nat → Option Int}
    {g : Nat → Int} {i : Nat} (hd : i < d.length) (hr : rhs i = some (g i)) :
    readBin f d rhs i = some (f (d.getD i 0) (g i)) := by
  unfold readBin
  rw [getElem?_eq_getD hd, hr]
  rfl

theorem buildN_eq_map {α : Type} {g : Nat → α} :
    ∀ {N : Nat} {f : Nat → Option α}, (∀ i, i < N → f i = some (g i)) →
      buildN N f = some ((List.range N).map g)
  | 0, f, _ => rfl
  | N + 1, f, h => by
      have ih := buildN_eq_map (g := g) (N := N) (f := f)
        (fun i hi => h i (Nat.lt_succ_of_lt hi))
      simp [buildN, ih, h N (Nat.lt_succ_self N), List.range_succ]

theorem buildN_eq_none_iff {α : Type} :
    ∀ {N : Nat} {f : Nat → Option α}, (buildN N f = none ↔ ∃ i, i < N ∧ f i = none)
  | 0, f => by
      constructor
      · intro h; exact Option.noConfusion h
      · rintro ⟨i, hi, _⟩; exact absurd hi (Nat.not_lt_zero i)
  | N + 1, f => by
      constructor
      · intro h
        rcases hb : buildN N f with _ | xs
        · rcases (buildN_eq_none_iff (N := N) (f := f)).1 hb with ⟨i, hi, hfi⟩
          exact ⟨i, Nat.lt_succ_of_lt hi, hfi⟩
        · rcases hf : f N with _ | x
          · exact ⟨N, Nat.lt_succ_self N, hf⟩
          · simp [buildN, hb, hf] at h
      · rintro ⟨i, hi, hfi⟩
        rcases Nat.lt_succ_iff_lt_or_eq.1 hi with hlt | rfl
        · have : buildN N f = none := (buildN_eq_none_iff (N := N) (f := f)).2 ⟨i, hlt, hfi⟩
          simp [buildN, this]
        · rcases hb : buildN i f with _ | xs <;> simp [buildN, hb, hfi]

theorem sumN_eq {g : Nat → Int} :
    ∀ {N : Nat} {f : Nat → Option Int}, (∀ i, i < N → f i = some (g i)) →
      sumN N f = some (((List.range N).map g).sum)
  | 0, f, _ => rfl
  | N + 1, f, h => by
      have ih := sumN_eq (g := g) (N := N) (f := f)
        (fun i hi => h i (Nat.lt_succ_of_lt hi))
      simp [sumN, ih, h N (Nat.lt_succ_self N), List.range_succ]

theorem mapMOpt_eq_map {α β : Type} {g : α → β} {f : α → Option β} :
    ∀ {l : List α}, (∀ x ∈ l, f x = some (g x)) → mapMOpt f l = some (l.map g)
  | [], _ => rfl
  | x :: xs, h => by
      have ih := mapMOpt_eq_map (g := g) (f := f) (l := xs)
        (fun y hy => h y (List.mem_cons_of_mem x hy))
      simp [mapMOpt, ih, h x (List.mem_cons_self x xs)]

theorem mapMOpt_eq_none_iff {α β : Type} {f : α → Option β} :
    ∀ {l : List α}, (mapMOpt f l = none ↔ ∃ x ∈ l, f x = none)
  | [] => by
      constructor
      · intro h; exact Option.noConfusion h
      · rintro ⟨x, hx, _⟩; cases hx
  | x :: xs => by
      have ih := mapMOpt_eq_none_iff (f := f) (l := xs)
      rcases hf : f x with _ | y
      · constructor
        · intro _; exact ⟨x, List.mem_cons_self x xs, hf⟩
        · intro _; simp [mapMOpt, hf]
      · constructor
        · intro h
          rcases hb : mapMOpt f xs with _ | ys
          · rcases ih.1 hb with ⟨z, hz, hfz⟩
            exact ⟨z, List.mem_cons_of_mem x hz, hfz⟩
          · simp [mapMOpt, hf, hb] at h
        · rintro ⟨z, hz, hfz⟩
          rcases List.mem_cons.1 hz with rfl | hz2
          · rw [hfz] at hf; cases hf
          · have hb := ih.2 ⟨z, hz2, hfz⟩
            simp [mapMOpt, hf, hb]

theorem mutZip_eq {f : Int → Int → Int} {g : Nat → Int} :
    ∀ (d : List Int) (i : Nat) (rhs : Nat → Option Int),
      (∀ j, j < d.length → rhs (i + j) = some (g (i + j))) →
      mutZip f d i rhs = some ((List.range d.length).map
        (fun j => f (d.getD j 0) (g (i + j))))
  | [], _, _, _ => rfl
  | x :: xs, i, rhs, h => by
      have h0 : rhs i = some (g i) := by
        have := h 0 (Nat.succ_pos xs.length)
        simpa using this
      have ih := mutZip_eq (f := f) (g := g) xs (i + 1) rhs
        (fun j hj => by
          have := h (j + 1) (Nat.succ_lt_succ hj)
          rw [show i + (j + 1) = i + 1 + j by omega] at this
          exact this)
      simp only [mutZip, h0, ih, Option.bind_eq_bind, Option.some_bind,
        Option.pure_def, List.length_cons]
      rw [List.range_succ_eq_map, List.map_cons, List.map_map]
      simp only [Option.some.injEq, List.getD_cons_zero, Nat.add_zero]
      refine congrArg₂ List.cons rfl ?_
      apply List.map_congr_left
      intro j _
      simp only [Function.comp_apply, List.getD_cons_succ]
      rw [show i + (j + 1) = i + 1 + j by omega]

end Sickmath

namespace Sickmath

theorem Vector.index_eq {N : Nat} {v : Vector} (h : v.wf N) {i : Nat} (hi : i < N) :
    v.index i = some (v.el i) := by
  cases v with
  | Small d =>
      have hd : i < d.length := by
        simp only [Vector.wf, Vector.dataLen] at h; omega
      exact getElem?_eq_getD hd
  | Large d =>
      have hd : i < d.length := by
        simp only [Vector.wf, Vector.dataLen] at h; omega
      exact getElem?_eq_getD hd

theorem listGetElem?_isSome {l : List Int} {i : Nat} :
    l[i]?.isSome = true ↔ i < l.length := by
  rw [Option.isSome_iff_exists]
  constructor
  · rintro ⟨x, hx⟩
    exact (List.getElem?_eq_some.1 hx).1
  · intro h
    exact ⟨l[i], List.getElem?_eq_getElem h⟩

theorem Vector.index_isSome_iff {v : Vector} {i : Nat} :
    (v.index i).isSome ↔ i < v.dataLen := by
  cases v <;> simpa [Vector.index, Vector.dataLen] using listGetElem?_isSome

theorem Vector.el_withData (v : Vector) (l : List Int) (i : Nat) :
    (v.withData l).el i = l.getD i 0 := by
  cases v <;> rfl

theorem Vector.wf_withData {N : Nat} (v : Vector) {l : List Int} (h : l.length = N) :
    (v.withData l).wf N := by
  cases v <;> simp [Vector.withData, Vector.wf, Vector.dataLen, h]

theorem Vector.isSmall_withData (v : Vector) (l : List Int) :
    (v.withData l).isSmall = v.isSmall := by
  cases v <;> rfl

theorem range_map_getD {g : Nat → Int} {N i : Nat} (hi : i < N) :
    ((List.range N).map g).getD i 0 = g i := by
  have : ((List.range N).map g)[i]? = some (g i) := by
    rw [List.getElem?_map, List.getElem?_range hi]; rfl
  simp [List.getD, this]

theorem map_eq_range_map (f : Int → Int) :
    ∀ (d : List Int), d.map f = (List.range d.length).map (fun i => f (d.getD i 0))
  | [] => rfl
  | x :: xs => by
      rw [List.map_cons, map_eq_range_map f xs, List.length_cons,
        List.range_succ_eq_map, List.map_cons, List.map_map]
      simp only [List.getD_cons_zero]
      refine congrArg₂ List.cons rfl ?_
      apply List.map_congr_left
      intro j _
      simp [Function.comp_apply, List.getD_cons_succ]

theorem build_op_eq (f : Int → Int → Int) {N : Nat} {d : List Int} {b : Vector}
    (hd : d.length = N) (hb : b.wf N) :
    buildN N (readBin f d b.index) =
      some ((List.range N).map (fun i => f (d.getD i 0) (b.el i))) :=
  buildN_eq_map (fun i hi => readBin_eq (by omega) (Vector.index_eq hb hi))

theorem mut_op_eq (f : Int → Int → Int) {N : Nat} {d : List Int} {b : Vector}
    (hd : d.length = N) (hb : b.wf N) :
    mutZip f d 0 b.index =
      some ((List.range N).map (fun i => f (d.getD i 0) (b.el i))) := by
  have h := mutZip_eq (f := f) (g := b.el) d 0 b.index
    (fun j hj => by simpa using Vector.index_eq hb (by omega))
  simpa [hd] using h

theorem Vector.add_vector_eq {N : Nat} {a b : Vector} (ha : a.wf N) (hb : b.wf N) :
    Vector.add_vector N a b =
      some (a.withData ((List.range N).map (fun i => a.el i + b.el i))) := by
  cases a with
  | Small d =>
      have hd : d.length = N := ha
      simp [Vector.add_vector, SmallVector.add_vector,
        build_op_eq (fun x y => x + y) hd hb, Vector.withData, Vector.el]
  | Large d =>
      have hd : d.length = N := ha
      simp [Vector.add_vector, LargeVector.add_vector,
        build_op_eq (fun x y => x + y) hd hb, Vector.withData, Vector.el]

theorem Vector.sub_vector_eq {N : Nat} {a b : Vector} (ha : a.wf N) (hb : b.wf N) :
    Vector.sub_vector N a b =
      some (a.withData ((List.range N).map (fun i => a.el i - b.el i))) := by
  cases a with
  | Small d =>
      have hd : d.length = N := ha
      simp [Vector.sub_vector, SmallVector.sub_vector,
        build_op_eq (fun x y => x - y) hd hb, Vector.withData, Vector.el]
  | Large d =>
      have hd : d.length = N := ha
      simp [Vector.sub_vector, LargeVector.sub_vector,
        build_op_eq (fun x y => x - y) hd hb, Vector.withData, Vector.el]

theorem Vector.entrywise_eq {N : Nat} {a b : Vector} (ha : a.wf N) (hb : b.wf N) :
    Vector.entrywise N a b =
      some (a.withData ((List.range N).map (fun i => a.el i * b.el i))) := by
  cases a with
  | Small d =>
      have hd : d.length = N := ha
      simp [Vector.entrywise, SmallVector.entrywise,
        build_op_eq (fun x y => x * y) hd hb, Vector.withData, Vector.el]
  | Large d =>
      have hd : d.length = N := ha
      simp [Vector.entrywise, LargeVector.entrywise,
        build_op_eq (fun x y => x * y) hd hb, Vector.withData, Vector.el]

theorem Vector.add_vector_mut_eq {N : Nat} {a b : Vector} (ha : a.wf N) (hb : b.wf N) :
    Vector.add_vector_mut a b =
      some (a.withData ((List.range N).map (fun i => a.el i + b.el i))) := by
  cases a with
  | Small d =>
      have hd : d.length = N := ha
      simp [Vector.add_vector_mut, SmallVector.add_vector_mut,
        mut_op_eq (fun x y => x + y) hd hb, Vector.withData, Vector.el]
  | Large d =>
      have hd : d.length = N := ha
      simp [Vector.add_vector_mut, LargeVector.add_vector_mut,
        mut_op_eq (fun x y => x + y) hd hb, Vector.withData, Vector.el]

theorem Vector.sub_vector_mut_eq {N : Nat} {a b : Vector} (ha : a.wf N) (hb : b.wf N) :
    Vector.sub_vector_mut a b =
      some (a.withData ((List.range N).map (fun i => a.el i - b.el i))) := by
  cases a with
  | Small d =>
      have hd : d.length = N := ha
      simp [Vector.sub_vector_mut, SmallVector.sub_vector_mut,
        mut_op_eq (fun x y => x - y) hd hb, Vector.withData, Vector.el]
  | Large d =>
      have hd : d.length = N := ha
      simp [Vector.sub_vector_mut, LargeVector.sub_vector_mut,
        mut_op_eq (fun x y => x - y) hd hb, Vector.withData, Vector.el]

theorem Vector.entrywise_mut_eq {N : Nat} {a b : Vector} (ha : a.wf N) (hb : b.wf N) :
    Vector.entrywise_mut a b =
      some (a.withData ((List.range N).map (fun i => a.el i * b.el i))) := by
  cases a with
  | Small d =>
      have hd : d.length = N := ha
      simp [Vector.entrywise_mut, SmallVector.entrywise_mut,
        mut_op_eq (fun x y => x * y) hd hb, Vector.withData, Vector.el]
  | Large d =>
      have hd : d.length = N := ha
      simp [Vector.entrywise_mut, LargeVector.entrywise_mut,
        mut_op_eq (fun x y => x * y) hd hb, Vector.withData, Vector.el]

end Sickmath

namespace Sickmath

theorem Vector.scalar_eq {t : ElemTy} {s : Int} {N : Nat} {a : Vector}
    (ha : a.wf N) (hrep : t.repr s = true) :
    Vector.scalar t s a =
      some (a.withData ((List.range N).map (fun i => a.el i * s))) := by
  cases a with
  | Small d =>
      have hd : d.length = N := ha
      rw [Vector.scalar, SmallVector.scalar]
      simp [ElemTy.from_isize, hrep, map_eq_range_map, hd, Vector.withData, Vector.el]
  | Large d =>
      have hd : d.length = N := ha
      rw [Vector.scalar, LargeVector.scalar]
      rw [mapMOpt_eq_map (g := fun x => x * s)
        (fun x _ => by simp [ElemTy.from_isize, hrep])]
      simp [map_eq_range_map, hd, Vector.withData, Vector.el]

theorem Vector.scalar_mut_agrees (t : ElemTy) (s : Int) (a : Vector) :
    Vector.scalar_mut t s a = Vector.scalar t s a := by
  cases a <;> rfl

theorem Vector.cross_ne (N : Nat) (hN : N ≠ 3) (a b : Vector) :
    Vector.cross N a b = none := by
  cases a <;> simp [Vector.cross, SmallVector.cross, LargeVector.cross, hN]

theorem Vector.cross_mut_ne (N : Nat) (hN : N ≠ 3) (a b : Vector) :
    Vector.cross_mut N a b = none := by
  cases a <;> simp [Vector.cross_mut, SmallVector.cross_mut, LargeVector.cross_mut, hN]

theorem Vector.cross_eq {a b : Vector} (ha : a.wf 3) (hb : b.wf 3) :
    Vector.cross 3 a b = some (a.withData
      [a.el 1 * b.el 2 - a.el 2 * b.el 1,
       a.el 2 * b.el 0 - a.el 0 * b.el 2,
       a.el 0 * b.el 1 - a.el 1 * b.el 0]) := by
  have hb0 := Vector.index_eq hb (show 0 < 3 by omega)
  have hb1 := Vector.index_eq hb (show 1 < 3 by omega)
  have hb2 := Vector.index_eq hb (show 2 < 3 by omega)
  cases a with
  | Small d =>
      obtain ⟨p, q, r, rfl⟩ := List.length_eq_three.1 ha
      simp [Vector.cross, SmallVector.cross, hb0, hb1, hb2,
        Vector.withData, Vector.el]
  | Large d =>
      obtain ⟨p, q, r, rfl⟩ := List.length_eq_three.1 ha
      simp [Vector.cross, LargeVector.cross, hb0, hb1, hb2,
        Vector.withData, Vector.el]

theorem Vector.cross_mut_eq {a b : Vector} (ha : a.wf 3) (hb : b.wf 3) :
    Vector.cross_mut 3 a b = some (a.withData
      [a.el 1 * b.el 2 - a.el 2 * b.el 1,
       a.el 2 * b.el 0 - a.el 0 * b.el 2,
       a.el 0 * b.el 1 - a.el 1 * b.el 0]) := by
  have hb0 := Vector.index_eq hb (show 0 < 3 by omega)
  have hb1 := Vector.index_eq hb (show 1 < 3 by omega)
  have hb2 := Vector.index_eq hb (show 2 < 3 by omega)
  cases a with
  | Small d =>
      obtain ⟨p, q, r, rfl⟩ := List.length_eq_three.1 ha
      simp [Vector.cross_mut, SmallVector.cross_mut, hb0, hb1, hb2,
        Vector.withData, Vector.el]
  | Large d =>
      obtain ⟨p, q, r, rfl⟩ := List.length_eq_three.1 ha
      simp [Vector.cross_mut, LargeVector.cross_mut, hb0, hb1, hb2,
        Vector.withData, Vector.el]

theorem peqFrom_eq_true {a b : Vector} :
    ∀ (n i : Nat),
      (∀ j, i ≤ j → j < i + n →
        a.index j = some (a.el j) ∧ b.index j = some (b.el j) ∧ a.el j = b.el j) →
      peqFrom a b i n = some true
  | 0, _, _ => rfl
  | n + 1, i, h => by
      obtain ⟨hai, hbi, heq⟩ := h i (Nat.le_refl i) (by omega)
      have ih := peqFrom_eq_true n (i + 1) (fun j hj1 hj2 => h j (by omega) (by omega))
      simp [peqFrom, hai, hbi, heq, ih]

theorem Vector.peq_eq_true {N : Nat} {a b : Vector} (ha : a.wf N) (hb : b.wf N)
    (h : ∀ i, i < N → a.el i = b.el i) : Vector.peq N a b = some true :=
  peqFrom_eq_true N 0 (fun j hj1 hj2 =>
    ⟨Vector.index_eq ha (by omega), Vector.index_eq hb (by omega), h j (by omega)⟩)

end Sickmath

namespace Sickmath

theorem mapMOpt_congr {α β : Type} {f g : α → Option β} :
    ∀ {l : List α}, (∀ x ∈ l, f x = g x) → mapMOpt f l = mapMOpt g l
  | [], _ => rfl
  | x :: xs, h => by
      have ih := mapMOpt_congr (f := f) (g := g) (l := xs)
        (fun y hy => h y (List.mem_cons_of_mem x hy))
      simp only [mapMOpt, h x (List.mem_cons_self x xs), ih]

theorem from_isize_eq_none {t : ElemTy} {x : Int} :
    t.from_isize x = none ↔ t.repr x = false := by
  unfold ElemTy.from_isize
  by_cases h : t.repr x <;> simp [h]

theorem from_isize_eq_some {t : ElemTy} {x : Int} (h : t.repr x = true) :
    t.from_isize x = some x := by
  unfold ElemTy.from_isize
  simp [h]

theorem range_map_getD_any {α : Type} (z : α) {g : Nat → α} {N i : Nat} (hi : i < N) :
    ((List.range N).map g).getD i z = g i := by
  have h1 : i < ((List.range N).map g).length := by simp [hi]
  rw [List.getD_eq_getElem _ z h1, List.getElem_map, List.getElem_range]

end Sickmath

namespace Sickmath.Matrix

theorem gridGet_eq {M N : Nat} {g : List (List Int)} (hw : wf M N g)
    {r c : Nat} (hr : r < M) (hc : c < N) :
    gridGet g r c = some ((g.getD r []).getD c 0) := by
  have hrl : r < g.length := by rw [hw.1]; exact hr
  have hrow : g[r]? = some g[r] := List.getElem?_eq_getElem hrl
  have hlen : g[r].length = N := hw.2 _ (List.getElem_mem hrl)
  have hcd : g[r][c]? = some (g[r].getD c 0) := getElem?_eq_getD (by omega)
  have hgd : g.getD r [] = g[r] := List.getD_eq_getElem g [] hrl
  rw [gridGet, hrow]
  show g[r][c]? = some ((g.getD r []).getD c 0)
  rw [hgd]
  exact hcd

theorem dotRow_eq {N : Nat} {row col : List Int} (hr : N ≤ row.length)
    (hc : N ≤ col.length) :
    dotRow N row col = some (dvOf N row col) := by
  unfold dotRow dvOf
  apply sumN_eq (g := fun i => row.getD i 0 * col.getD i 0)
  intro i hi
  have h1 : col.get? i = some (col.getD i 0) := by
    rw [List.get?_eq_getElem?]
    exact getElem?_eq_getD (by omega)
  have h2 : i < row.length := by omega
  exact readBin_eq (g := fun j => col.getD j 0) h2 h1

theorem btOf_length {N P : Nat} {b : List (List Int)} : (btOf N P b).length = P := by
  simp [btOf]

theorem btOf_mem_length {N P : Nat} {b : List (List Int)} {col : List Int}
    (h : col ∈ btOf N P b) : col.length = N := by
  obtain ⟨c, _, rfl⟩ := List.mem_map.1 h
  simp

theorem transpose_eq {N P : Nat} {b : List (List Int)} (hb : wf N P b) :
    transpose N P b = some (btOf N P b) :=
  buildN_eq_map (fun c hc => buildN_eq_map (fun k hk => gridGet_eq hb hk hc))

theorem dv_bt_eq {a b : List (List Int)} {N P r c : Nat} (hc : c < P) :
    dvOf N (a.getD r []) ((btOf N P b).getD c []) = standardEntry a b N r c := by
  have hbt : (btOf N P b).getD c [] =
      (List.range N).map (fun k => (b.getD k []).getD c 0) :=
    range_map_getD_any [] hc
  rw [dvOf, standardEntry, hbt]
  refine congrArg List.sum (List.map_congr_left ?_)
  intro i hi
  rw [range_map_getD_any 0 (List.mem_range.1 hi)]

theorem multTranspose_unfold {t : ElemTy} {M N P : Nat} {a b : List (List Int)}
    (hA : wf M N a) (hB : wf N P b) :
    multTranspose t M N P a b =
      mapMOpt (fun row =>
        mapMOpt (fun col => t.from_isize (dvOf N row col)) (btOf N P b)) a := by
  have hle : a.length ≤ M := Nat.le_of_eq hA.1
  rw [multTranspose, if_pos hle, transpose_eq hB]
  have hcongr : mapMOpt (fun row => mapMOpt
      (fun col => (dotRow N row col).bind t.from_isize) (btOf N P b)) a =
      mapMOpt (fun row => mapMOpt
      (fun col => t.from_isize (dvOf N row col)) (btOf N P b)) a := by
    apply mapMOpt_congr
    intro row hrow
    apply mapMOpt_congr
    intro col hcol
    have hrl : row.length = N := hA.2 row hrow
    have hcl : col.length = N := btOf_mem_length hcol
    rw [dotRow_eq (Nat.le_of_eq hrl.symm) (Nat.le_of_eq hcl.symm)]
    rfl
  show (mapMOpt (fun row => mapMOpt
      (fun col => (dotRow N row col).bind t.from_isize) (btOf N P b)) a).bind
      (fun rows => some (rows ++ List.replicate (M - a.length) (List.replicate P 0)))
      = _
  rw [hcongr, hA.1, Nat.sub_self, List.replicate_zero]
  cases mapMOpt (fun row => mapMOpt
      (fun col => t.from_isize (dvOf N row col)) (btOf N P b)) a with
  | none => rfl
  | some rows => simp

end Sickmath.Matrix

namespace Sickmath

theorem fromIterFill_length :
    ∀ (src collector : List Int) (idx : Nat) (res : List Int),
      fromIterFill collector idx src = some res → res.length = collector.length
  | [], collector, idx, res => by
      intro h
      rw [fromIterFill] at h
      cases h
      rfl
  | item :: rest, collector, idx, res => by
      intro h
      rw [fromIterFill] at h
      by_cases hidx : idx < collector.length
      · rw [if_pos hidx] at h
        have := fromIterFill_length rest (collector.set idx item) (idx + 1) res h
        simpa using this
      · rw [if_neg hidx] at h
        cases h

theorem Vector.withData_withData (v : Vector) (l m : List Int) :
    (v.withData l).withData m = v.withData m := by
  cases v <;> rfl

/-- C1: in the regime selected by P * M < 240000, Matrix::mult is claimed to
compute the standard product with the inner sum over k in 0..N.  The code
instead sums over k in 0..P (matrix/math.rs:36): for the 1x2 by 2x1 product
of [[1,1]] and [[1],[1]], the direct regime is selected and the code
produces entry 1, while the standard product entry over N = 2 terms is 2. -/
theorem C1_direct_regime_truncates_inner_sum :
    Matrix.mult ElemTy.total 1 2 1 [[1, 1]] [[1], [1]] = some [[1]] ∧
    Matrix.standardEntry [[1, 1]] [[1], [1]] 2 0 0 = 2 ∧
    1 * 1 < 300 * 800 := by
  refine ⟨by decide, by decide, by decide⟩

/-- C2: the direct and transpose regimes of Matrix::mult are claimed to
produce identical results on the same inputs.  On the 1x2 by 2x1 product of
[[1,1]] and [[1],[1]] the direct regime (which mult selects, since
P * M = 1 < 240000) yields [[1]] while the transpose regime yields [[2]],
because the direct inner accumulation ranges over P instead of N. -/
theorem C2_regimes_disagree :
    Matrix.mult ElemTy.total 1 2 1 [[1, 1]] [[1], [1]] = some [[1]] ∧
    Matrix.multDirect 1 1 [[1, 1]] [[1], [1]] = some [[1]] ∧
    Matrix.multTranspose ElemTy.total 1 2 1 [[1, 1]] [[1], [1]] = some [[2]] := by
  refine ⟨by decide, by decide, by decide⟩

/-- C3: the - and -= operators on the unified Vector are claimed to mirror
sub_vector / sub_vector_mut on every storage variant.  For a Large-variant
receiver the Sub and SubAssign impls delegate to add_vector and
add_vector_mut (math_ops.rs:76 and math_ops.rs:98): on Large [5] minus
Large [1] they produce [6] where sub_vector produces [4]. -/
theorem C3_sub_on_large_variant_adds :
    Vector.sub 1 (Vector.Large [5]) (Vector.Large [1]) = some (Vector.Large [6]) ∧
    Vector.sub_assign (Vector.Large [5]) (Vector.Large [1]) = some (Vector.Large [6]) ∧
    Vector.sub_vector 1 (Vector.Large [5]) (Vector.Large [1]) = some (Vector.Large [4]) ∧
    Vector.sub_vector_mut (Vector.Large [5]) (Vector.Large [1]) = some (Vector.Large [4]) := by
  refine ⟨by decide, by decide, by decide, by decide⟩

/-- C4 counterexample: constructing through Vector::new_large from a Vec of
the wrong length does not abort: the IntoVec conversion for Vec is the
identity with no length check, so a 3-element source yields a Large vector
with 3 elements at nominal arity 4. -/
theorem C4_cex_new_large_unchecked :
    Vector.new_large 4 [1, 2, 3] = Vector.Large [1, 2, 3] ∧
    (Vector.new_large 4 [1, 2, 3]).dataLen = 3 := by
  refine ⟨rfl, rfl⟩

/-- C4 amended: Vector::new (fixed-capacity path) aborts exactly when the
source length differs from N and succeeds on an N-element source; but
Vector::new_large stores the runtime-length source unchecked, so only the
fixed-capacity path enforces the length. -/
theorem C4_amended_only_small_path_checks : ∀ (N : Nat) (l : List Int),
    (Vector.new N l = none ↔ l.length ≠ N) ∧
    Vector.new_large N l = Vector.Large l ∧
    (l.length = N → Vector.new N l = some (Vector.Small l)) := by
  intro N l
  refine ⟨?_, rfl, ?_⟩
  · unfold Vector.new SmallVector.new List.into_array
    by_cases h : l.length = N <;> simp [h]
  · intro h
    unfold Vector.new SmallVector.new List.into_array
    simp [h]

theorem C4_amended_witness :
    Vector.new 4 [1, 2, 3, 4] = some (Vector.Small [1, 2, 3, 4]) ∧
    Vector.new 4 [1, 2, 3] = none :=
  ⟨(C4_amended_only_small_path_checks 4 [1, 2, 3, 4]).2.2 (by decide),
   (C4_amended_only_small_path_checks 4 [1, 2, 3]).1.2 (by decide)⟩

/-- C5 counterexample: two public construction paths of the dynamic variant
break the exactly-N-accessible-elements invariant: Default for LargeVector
builds Vec::with_capacity(N), an empty vector, so indexing position 0
fails at arity 2; and Vector::new_large with a 3-element source at arity 4
leaves position 3 inaccessible. -/
theorem C5_cex_dynamic_constructors_break_invariant :
    Vector.index (Vector.Large (LargeVector.default 2)) 0 = none ∧
    Vector.index (Vector.new_large 4 [1, 2, 3]) 3 = none := by
  refine ⟨rfl, rfl⟩

/-- C5 amended: the constructors that go through the fixed-capacity variant
(new, new_random, default on the unified type, from_iter in the small
regime) and the random constructors always yield exactly N accessible
elements; Vector::new_large yields exactly the length of its source, and
Default for LargeVector yields an empty data vector. -/
theorem C5_amended_invariant_by_path :
    ∀ (N : Nat) (l : List Int) (gen : Nat → Int) (v : Vector) (i : Nat),
    (Vector.new N l = some v → i < N → (v.index i).isSome = true) ∧
    (i < N → ((Vector.new_random N gen).index i).isSome = true) ∧
    (i < N → ((Vector.new_large_random N gen).index i).isSome = true) ∧
    (i < N → ((Vector.default N).index i).isSome = true) ∧
    (i < l.length → ((Vector.new_large N l).index i).isSome = true) ∧
    (Vector.from_iter N l = some v → N < 5001 → i < N → (v.index i).isSome = true) ∧
    (Vector.Large (LargeVector.default N)).dataLen = 0 := by
  intro N l gen v i
  refine ⟨?_, ?_, ?_, ?_, ?_, ?_, rfl⟩
  · intro h hi
    unfold Vector.new SmallVector.new List.into_array at h
    by_cases hl : l.length = N
    · rw [if_pos hl] at h
      cases h
      rw [Vector.index_isSome_iff]
      show i < l.length
      omega
    · rw [if_neg hl] at h
      cases h
  · intro hi
    rw [Vector.index_isSome_iff]
    unfold Vector.new_random SmallVector.new_random LargeVector.new_random
    by_cases h : N < 5001 <;> simp [h, Vector.dataLen, hi]
  · intro hi
    rw [Vector.index_isSome_iff]
    unfold Vector.new_large_random LargeVector.new_random
    simp [Vector.dataLen, hi]
  · intro hi
    rw [Vector.index_isSome_iff]
    unfold Vector.default SmallVector.default
    simp [Vector.dataLen, hi]
  · intro hi
    rw [Vector.index_isSome_iff]
    unfold Vector.new_large LargeVector.new List.into_vec
    simpa [Vector.dataLen] using hi
  · intro h hsmall hi
    unfold Vector.from_iter at h
    rw [if_pos hsmall] at h
    rcases Option.map_eq_some'.1 h with ⟨res, hres, rfl⟩
    rw [Vector.index_isSome_iff]
    have := fromIterFill_length l (List.replicate N 0) 0 res hres
    show i < res.length
    simp only [List.length_replicate] at this
    omega

theorem C5_amended_witness :
    ((Vector.new_random 2 (fun _ => 7)).index 1).isSome = true ∧
    ((Vector.default 3).index 2).isSome = true :=
  ⟨(C5_amended_invariant_by_path 2 [] (fun _ => 7) (Vector.Small []) 1).2.1 (by decide),
   (C5_amended_invariant_by_path 3 [] (fun _ => 7) (Vector.Small []) 2).2.2.2.1 (by decide)⟩

end Sickmath

namespace Sickmath

/-- C6: on both storage variants, cross and cross_mut abort exactly when the
arity N is not 3; at arity 3 on well-formed operands they both return the
vector (a1 b2 - a2 b1, a2 b0 - a0 b2, a0 b1 - a1 b0). -/
theorem C6_cross_arity_and_formula : ∀ (N : Nat) (a b : Vector),
    a.wf N → b.wf N →
    ((Vector.cross N a b = none) ↔ N ≠ 3) ∧
    ((Vector.cross_mut N a b = none) ↔ N ≠ 3) ∧
    (N = 3 →
      Vector.cross N a b = some (a.withData
        [a.el 1 * b.el 2 - a.el 2 * b.el 1,
         a.el 2 * b.el 0 - a.el 0 * b.el 2,
         a.el 0 * b.el 1 - a.el 1 * b.el 0]) ∧
      Vector.cross_mut N a b = Vector.cross N a b) := by
  intro N a b ha hb
  by_cases hN : N = 3
  · subst hN
    have h1 := Vector.cross_eq ha hb
    have h2 := Vector.cross_mut_eq ha hb
    refine ⟨?_, ?_, fun _ => ⟨h1, by rw [h1, h2]⟩⟩
    · rw [h1]; simp
    · rw [h2]; simp
  · refine ⟨?_, ?_, fun h => absurd h hN⟩
    · rw [Vector.cross_ne N hN]; simp [hN]
    · rw [Vector.cross_mut_ne N hN]; simp [hN]

theorem C6_witness :
    Vector.cross 3 (Vector.Small [1, 2, 3]) (Vector.Small [4, 5, 6]) =
      some (Vector.Small [-3, 6, -3]) ∧
    Vector.cross 4 (Vector.Small [1, 2, 3, 4]) (Vector.Small [5, 6, 7, 8]) = none := by
  constructor
  · have h := ((C6_cross_arity_and_formula 3 (Vector.Small [1, 2, 3])
      (Vector.Small [4, 5, 6]) (by decide) (by decide)).2.2 rfl).1
    rw [h]
    decide
  · exact (C6_cross_arity_and_formula 4 (Vector.Small [1, 2, 3, 4])
      (Vector.Small [5, 6, 7, 8]) (by decide) (by decide)).1.2 (by decide)

/-- C7: for each operation with an immutable and a mutable form on the
unified Vector (scalar, add_vector, sub_vector, entrywise, cross), on
well-formed operands of equal arity, whenever the immutable form succeeds
the mutable form leaves the receiver holding exactly the immutable result.
For scalar both forms agree unconditionally on each storage variant. -/
theorem C7_mut_forms_agree : ∀ (t : ElemTy) (s : Int) (N : Nat) (a b : Vector),
    a.wf N → b.wf N →
    Vector.scalar_mut t s a = Vector.scalar t s a ∧
    (∀ r, Vector.add_vector N a b = some r → Vector.add_vector_mut a b = some r) ∧
    (∀ r, Vector.sub_vector N a b = some r → Vector.sub_vector_mut a b = some r) ∧
    (∀ r, Vector.entrywise N a b = some r → Vector.entrywise_mut a b = some r) ∧
    (∀ r, Vector.cross N a b = some r → Vector.cross_mut N a b = some r) := by
  intro t s N a b ha hb
  refine ⟨Vector.scalar_mut_agrees t s a, ?_, ?_, ?_, ?_⟩
  · intro r h
    rw [Vector.add_vector_eq ha hb] at h
    rw [Vector.add_vector_mut_eq ha hb]
    exact h
  · intro r h
    rw [Vector.sub_vector_eq ha hb] at h
    rw [Vector.sub_vector_mut_eq ha hb]
    exact h
  · intro r h
    rw [Vector.entrywise_eq ha hb] at h
    rw [Vector.entrywise_mut_eq ha hb]
    exact h
  · intro r h
    by_cases hN : N = 3
    · subst hN
      rw [Vector.cross_eq ha hb] at h
      rw [Vector.cross_mut_eq ha hb]
      exact h
    · rw [Vector.cross_ne N hN] at h
      cases h

theorem C7_witness :
    Vector.add_vector_mut (Vector.Small [1, 2, 3, 4]) (Vector.Small [5, 6, 7, 8]) =
      some (Vector.Small [6, 8, 10, 12]) ∧
    Vector.entrywise_mut (Vector.Large [1, 2, 3, 4]) (Vector.Small [5, 6, 7, 8]) =
      some (Vector.Large [5, 12, 21, 32]) :=
  ⟨(C7_mut_forms_agree ElemTy.total 0 4 (Vector.Small [1, 2, 3, 4])
      (Vector.Small [5, 6, 7, 8]) (by decide) (by decide)).2.1
      (Vector.Small [6, 8, 10, 12]) (by decide),
   (C7_mut_forms_agree ElemTy.total 0 4 (Vector.Large [1, 2, 3, 4])
      (Vector.Small [5, 6, 7, 8]) (by decide) (by decide)).2.2.2.1
      (Vector.Large [5, 12, 21, 32]) (by decide)⟩

/-- C8: every vector-returning arithmetic operation on the unified Vector
(scalar, add_vector, sub_vector, entrywise, cross, and the +, -, *
operators) rewraps its result in the receiver's storage-variant tag: a
Small-backed input yields a Small-backed output and a Large-backed input a
Large-backed output, whenever the operation returns at all. -/
theorem C8_operations_preserve_variant :
    ∀ (t : ElemTy) (s : Int) (N : Nat) (a b r : Vector),
    (Vector.scalar t s a = some r → r.isSmall = a.isSmall) ∧
    (Vector.add_vector N a b = some r → r.isSmall = a.isSmall) ∧
    (Vector.sub_vector N a b = some r → r.isSmall = a.isSmall) ∧
    (Vector.entrywise N a b = some r → r.isSmall = a.isSmall) ∧
    (Vector.cross N a b = some r → r.isSmall = a.isSmall) ∧
    (Vector.add N a b = some r → r.isSmall = a.isSmall) ∧
    (Vector.sub N a b = some r → r.isSmall = a.isSmall) ∧
    (Vector.mul N a b = some r → r.isSmall = a.isSmall) := by
  intro t s N a b r
  cases a <;> refine ⟨?_, ?_, ?_, ?_, ?_, ?_, ?_, ?_⟩ <;> intro h <;>
    obtain ⟨y, -, rfl⟩ := Option.map_eq_some'.1 h <;> rfl

theorem C8_witness :
    (Vector.Large [6]).isSmall = (Vector.Large [5]).isSmall :=
  (C8_operations_preserve_variant ElemTy.total 0 1 (Vector.Large [5])
    (Vector.Large [1]) (Vector.Large [6])).2.1 (by decide)

/-- C9: on well-formed equal-arity vectors over the exact integer model,
add_vector is commutative up to the library's elementwise == (which ignores
the storage tag), and add_vector followed by sub_vector of the same operand
returns a vector == the original receiver. -/
theorem C9_add_comm_and_round_trip : ∀ (N : Nat) (a b : Vector),
    a.wf N → b.wf N →
    ((Vector.add_vector N a b).bind (fun c =>
      (Vector.add_vector N b a).bind (fun d => Vector.peq N c d))) = some true ∧
    ((Vector.add_vector N a b).bind (fun c =>
      (Vector.sub_vector N c b).bind (fun e => Vector.peq N e a))) = some true := by
  intro N a b ha hb
  have hab := Vector.add_vector_eq ha hb
  have hba := Vector.add_vector_eq hb ha
  have hlen : ((List.range N).map (fun i => a.el i + b.el i)).length = N := by simp
  have hlen2 : ((List.range N).map (fun i => b.el i + a.el i)).length = N := by simp
  have hcwf := Vector.wf_withData (N := N) a hlen
  have hdwf := Vector.wf_withData (N := N) b hlen2
  constructor
  · rw [hab, hba]
    show Vector.peq N _ _ = some true
    apply Vector.peq_eq_true hcwf hdwf
    intro i hi
    rw [Vector.el_withData, Vector.el_withData, range_map_getD_any 0 hi,
      range_map_getD_any 0 hi]
    exact Int.add_comm (a.el i) (b.el i)
  · rw [hab]
    have hsub := Vector.sub_vector_eq hcwf hb
    rw [Option.some_bind, hsub, Option.some_bind]
    rw [Vector.withData_withData]
    have hlen3 : ((List.range N).map
        (fun i => (a.withData ((List.range N).map (fun j => a.el j + b.el j))).el i -
          b.el i)).length = N := by simp
    apply Vector.peq_eq_true (Vector.wf_withData a hlen3) ha
    intro i hi
    rw [Vector.el_withData, range_map_getD_any 0 hi, Vector.el_withData,
      range_map_getD_any 0 hi]
    omega

theorem C9_witness :
    ((Vector.add_vector 2 (Vector.Small [1, 2]) (Vector.Large [3, 4])).bind (fun c =>
      (Vector.add_vector 2 (Vector.Large [3, 4]) (Vector.Small [1, 2])).bind (fun d =>
        Vector.peq 2 c d))) = some true ∧
    ((Vector.add_vector 2 (Vector.Small [1, 2]) (Vector.Large [3, 4])).bind (fun c =>
      (Vector.sub_vector 2 c (Vector.Large [3, 4])).bind (fun e =>
        Vector.peq 2 e (Vector.Small [1, 2])))) = some true :=
  C9_add_comm_and_round_trip 2 (Vector.Small [1, 2]) (Vector.Large [3, 4])
    (by decide) (by decide)

end Sickmath

namespace Sickmath

theorem matrix_row_mem {M N : Nat} {a : List (List Int)} (hA : Matrix.wf M N a)
    {r : Nat} (hr : r < M) : a.getD r [] ∈ a := by
  have hrl : r < a.length := by rw [hA.1]; exact hr
  rw [List.getD_eq_getElem a [] hrl]
  exact List.getElem_mem hrl

theorem bt_col_mem {N P : Nat} {b : List (List Int)} {c : Nat} (hc : c < P) :
    (Matrix.btOf N P b).getD c [] ∈ Matrix.btOf N P b := by
  have hcl : c < (Matrix.btOf N P b).length := by
    rw [Matrix.btOf_length]; exact hc
  rw [List.getD_eq_getElem _ [] hcl]
  exact List.getElem_mem hcl

theorem matrix_row_idx {M N : Nat} {a : List (List Int)} (hA : Matrix.wf M N a)
    {row : List Int} (hrow : row ∈ a) : ∃ r, r < M ∧ row = a.getD r [] := by
  obtain ⟨r, hrl, hget⟩ := List.mem_iff_getElem.1 hrow
  refine ⟨r, by rw [← hA.1]; exact hrl, ?_⟩
  rw [List.getD_eq_getElem a [] hrl, hget]

theorem bt_col_idx {N P : Nat} {b : List (List Int)} {col : List Int}
    (hcol : col ∈ Matrix.btOf N P b) :
    ∃ c, c < P ∧ col = (Matrix.btOf N P b).getD c [] := by
  obtain ⟨c, hcr, hceq⟩ := List.mem_map.1 hcol
  have hc : c < P := List.mem_range.1 hcr
  refine ⟨c, hc, ?_⟩
  have hgd : (Matrix.btOf N P b).getD c [] =
      (List.range N).map (fun k => (b.getD k []).getD c 0) :=
    range_map_getD_any [] hc
  rw [hgd, hceq]

/-- C10: in the transpose regime of Matrix::mult, on well-formed M x N and
N x P operands, every output entry is the wide signed dot product of a row
of self with a row of the transpose converted back into T, and the regime
aborts exactly when some such dot value is not representable in T; the
direct regime ignores the element type entirely (it never converts back
from isize), so its result does not depend on which values T can
represent. -/
theorem C10_transpose_regime_converts_and_aborts (t : ElemTy) (M N P : Nat)
    (a b : List (List Int)) (hA : Matrix.wf M N a) (hB : Matrix.wf N P b) :
    (∀ R, Matrix.multTranspose t M N P a b = some R →
        ∀ r, r < M → ∀ c, c < P →
          Matrix.gridGet R r c = some (Matrix.standardEntry a b N r c) ∧
          t.repr (Matrix.standardEntry a b N r c) = true) ∧
    (Matrix.multTranspose t M N P a b = none ↔
        ∃ r, r < M ∧ ∃ c, c < P ∧ t.repr (Matrix.standardEntry a b N r c) = false) ∧
    (∀ t2 : ElemTy, P * M < 300 * 800 →
        Matrix.mult t M N P a b = Matrix.mult t2 M N P a b) ∧
    (¬ P * M < 300 * 800 →
        Matrix.mult t M N P a b = Matrix.multTranspose t M N P a b) := by
  have hunf := Matrix.multTranspose_unfold (t := t) hA hB
  have hnone : Matrix.multTranspose t M N P a b = none ↔
      ∃ r, r < M ∧ ∃ c, c < P ∧ t.repr (Matrix.standardEntry a b N r c) = false := by
    rw [hunf, mapMOpt_eq_none_iff]
    constructor
    · rintro ⟨row, hrow, hf⟩
      rw [mapMOpt_eq_none_iff] at hf
      obtain ⟨col, hcol, hfi⟩ := hf
      rw [from_isize_eq_none] at hfi
      obtain ⟨r, hr, rfl⟩ := matrix_row_idx hA hrow
      obtain ⟨c, hc, rfl⟩ := bt_col_idx hcol
      refine ⟨r, hr, c, hc, ?_⟩
      rw [← Matrix.dv_bt_eq (a := a) (b := b) (N := N) (r := r) hc]
      exact hfi
    · rintro ⟨r, hr, c, hc, hrepr⟩
      refine ⟨a.getD r [], matrix_row_mem hA hr, ?_⟩
      rw [mapMOpt_eq_none_iff]
      refine ⟨(Matrix.btOf N P b).getD c [], bt_col_mem hc, ?_⟩
      rw [from_isize_eq_none, Matrix.dv_bt_eq hc]
      exact hrepr
  refine ⟨?_, hnone, ?_, ?_⟩
  · intro R hR r hr c hc
    have hne : Matrix.multTranspose t M N P a b ≠ none := by rw [hR]; simp
    have hall : ∀ r2, r2 < M → ∀ c2, c2 < P →
        t.repr (Matrix.standardEntry a b N r2 c2) = true := by
      intro r2 hr2 c2 hc2
      by_contra hfalse
      have hfx : t.repr (Matrix.standardEntry a b N r2 c2) = false := by
        simpa using hfalse
      exact hne (hnone.2 ⟨r2, hr2, c2, hc2, hfx⟩)
    have hsome : Matrix.multTranspose t M N P a b =
        some (a.map (fun row =>
          (Matrix.btOf N P b).map (fun col => Matrix.dvOf N row col))) := by
      rw [hunf]
      apply mapMOpt_eq_map
      intro row hrow
      apply mapMOpt_eq_map
      intro col hcol
      obtain ⟨r2, hr2, rfl⟩ := matrix_row_idx hA hrow
      obtain ⟨c2, hc2, rfl⟩ := bt_col_idx hcol
      apply from_isize_eq_some
      rw [Matrix.dv_bt_eq hc2]
      exact hall r2 hr2 c2 hc2
    rw [hR] at hsome
    have hReq := Option.some.inj hsome
    subst hReq
    have hrl : r < a.length := by rw [hA.1]; exact hr
    have hcl : c < (Matrix.btOf N P b).length := by rw [Matrix.btOf_length]; exact hc
    have hrowq : (a.map (fun row =>
        (Matrix.btOf N P b).map (fun col => Matrix.dvOf N row col)))[r]? =
        some ((Matrix.btOf N P b).map (fun col => Matrix.dvOf N a[r] col)) := by
      rw [List.getElem?_map, List.getElem?_eq_getElem hrl]
      rfl
    have hcolq : ((Matrix.btOf N P b).map (fun col => Matrix.dvOf N a[r] col))[c]? =
        some (Matrix.dvOf N a[r] (Matrix.btOf N P b)[c]) := by
      rw [List.getElem?_map, List.getElem?_eq_getElem hcl]
      rfl
    have hval : Matrix.dvOf N a[r] (Matrix.btOf N P b)[c] =
        Matrix.standardEntry a b N r c := by
      rw [← List.getD_eq_getElem a [] hrl, ← List.getD_eq_getElem _ [] hcl]
      exact Matrix.dv_bt_eq hc
    constructor
    · rw [Matrix.gridGet, hrowq]
      show ((Matrix.btOf N P b).map (fun col => Matrix.dvOf N a[r] col))[c]? = _
      rw [hcolq, hval]
    · exact hall r hr c hc
  · intro t2 h
    rw [Matrix.mult, Matrix.mult, if_pos h, if_pos h]
  · intro h
    rw [Matrix.mult, if_neg h]

theorem C10_witness :
    Matrix.mult ElemTy.total 1 1 1 [[2]] [[3]] =
      Matrix.mult ⟨fun _ => false⟩ 1 1 1 [[2]] [[3]] ∧
    (Matrix.multTranspose ⟨fun x => decide (x < 6)⟩ 1 1 1 [[2]] [[3]] = none ↔
      ∃ r, r < 1 ∧ ∃ c, c < 1 ∧
        (⟨fun x => decide (x < 6)⟩ : ElemTy).repr
          (Matrix.standardEntry [[2]] [[3]] 1 r c) = false) :=
  ⟨(C10_transpose_regime_converts_and_aborts ElemTy.total 1 1 1 [[2]] [[3]]
      (by decide) (by decide)).2.2.1 ⟨fun _ => false⟩ (by decide),
   (C10_transpose_regime_converts_and_aborts ⟨fun x => decide (x < 6)⟩ 1 1 1
      [[2]] [[3]] (by decide) (by decide)).2.1⟩

end Sickmath
